import Mathlib

/-!
Shallow embedding of the process-scheduler simulator
(`planificador.py`, `procesos.py`, `comunicacion.py`).

Python dictionaries become association lists, mutable objects become
explicit state passing, and the single mutable `Process` objects shared
between `ready_queue` and `current_process` are represented by keeping
the record in the queue and pointing at it with its pid.
-/

namespace OSim

/-! ### comunicacion.py — MessageQueue -/

/-- A message as built by `MessageQueue.send_message`.  The Python code
stores `time.time()` as the timestamp; we model the wall clock as a
natural-number counter carried in the `MessageQueue` state. -/
structure Message where
  sender : Nat
  content : String
  timestamp : Nat
  deriving Repr, DecidableEq

/-- State of `MessageQueue`: the dict `process_queues` as an association
list from pid to FIFO list of messages, plus the modelled clock. -/
structure MessageQueue where
  process_queues : List (Nat × List Message)
  clock : Nat
  deriving Repr, DecidableEq

/-- The empty message system (`MessageQueue.__init__`). -/
def MessageQueue.init : MessageQueue :=
  { process_queues := [], clock := 0 }

/-- Dict lookup `self.process_queues[pid]` / membership test. -/
def MessageQueue.lookup (mq : MessageQueue) (pid : Nat) : Option (List Message) :=
  List.lookup pid mq.process_queues

/-- In-place update of the queue stored under `pid`. -/
def updateQueues : List (Nat × List Message) → Nat → (List Message → List Message) →
    List (Nat × List Message)
  | [], _, _ => []
  | (k, v) :: t, pid, f => (if k = pid then (k, f v) else (k, v)) :: updateQueues t pid f

/-- `MessageQueue.create_queue`: adds an empty queue for `pid` unless one
already exists (idempotent). -/
def MessageQueue.create_queue (mq : MessageQueue) (pid : Nat) : MessageQueue :=
  match mq.lookup pid with
  | some _ => mq
  | none => { mq with process_queues := mq.process_queues ++ [(pid, [])] }

/-- `MessageQueue.send_message`: returns `false` and leaves the state
unchanged when the receiver has no queue; otherwise appends the
formatted message at the tail and returns `true`. -/
def MessageQueue.send_message (mq : MessageQueue) (sender_pid receiver_pid : Nat)
    (message : String) : Bool × MessageQueue :=
  match mq.lookup receiver_pid with
  | none => (false, mq)
  | some _ =>
    let formatted : Message :=
      { sender := sender_pid, content := message, timestamp := mq.clock }
    (true,
     { mq with
        process_queues := updateQueues mq.process_queues receiver_pid (fun q => q ++ [formatted]),
        clock := mq.clock + 1 })

/-- `MessageQueue.receive_message`: `none` when `pid` has no queue or the
queue is empty; otherwise dequeues and returns the head. -/
def MessageQueue.receive_message (mq : MessageQueue) (pid : Nat) :
    Option Message × MessageQueue :=
  match mq.lookup pid with
  | none => (none, mq)
  | some [] => (none, mq)
  | some (m :: _) =>
    (some m,
     { mq with process_queues := updateQueues mq.process_queues pid (fun q => q.tail) })

/-- `MessageQueue.get_queue_size`: queue length, `0` when no queue exists. -/
def MessageQueue.get_queue_size (mq : MessageQueue) (pid : Nat) : Nat :=
  match mq.lookup pid with
  | none => 0
  | some q => q.length

/-! ### comunicacion.py — ProducerConsumer -/

/-- One entry of `ProducerConsumer.logs`.  The Python code appends
formatted strings; we keep the same data (item, resulting buffer length,
capacity) as a structured entry, in the same order. -/
inductive LogEntry where
  | produced (item : String) (count : Nat) (size : Nat)
  | producerBlocked
  | consumed (item : String) (count : Nat) (size : Nat)
  | consumerBlocked
  deriving Repr, DecidableEq

/-- State of `ProducerConsumer`.  The three `Semaphore` objects never
block in this class (their `acquire`/`release` methods are not called;
the code manipulates `.value` directly), so each is represented by its
integer value.  `mutex.value` is decremented and re-incremented inside
one call, so its net value is tracked (always back to its old value at
return). -/
structure ProducerConsumer where
  buffer_size : Nat
  buffer : List String
  mutexV : Int
  emptyV : Int
  fullV : Int
  logs : List LogEntry
  deriving Repr, DecidableEq

/-- `ProducerConsumer.__init__(buffer_size)`. -/
def ProducerConsumer.init (buffer_size : Nat) : ProducerConsumer :=
  { buffer_size := buffer_size, buffer := [], mutexV := 1,
    emptyV := buffer_size, fullV := 0, logs := [] }

/-- `ProducerConsumer.produce`: rejects (returns `false`, no log) when the
buffer is full; the `empty.value <= 0` branch logs a blocked entry; the
success path appends the item and a log entry and moves the counters. -/
def ProducerConsumer.produce (pc : ProducerConsumer) (item : String) :
    Bool × ProducerConsumer :=
  if pc.buffer_size ≤ pc.buffer.length then
    (false, pc)
  else if pc.emptyV ≤ 0 then
    (false, { pc with logs := pc.logs ++ [.producerBlocked] })
  else
    let buffer1 := pc.buffer ++ [item]
    (true,
     { pc with
        emptyV := pc.emptyV - 1,
        fullV := pc.fullV + 1,
        buffer := buffer1,
        logs := pc.logs ++ [.produced item buffer1.length pc.buffer_size] })

/-- `ProducerConsumer.consume`: `none` (no log) when the buffer is empty;
the `full.value <= 0` branch logs a blocked entry; the success path pops
the head, logs, and moves the counters. -/
def ProducerConsumer.consume (pc : ProducerConsumer) : Option String × ProducerConsumer :=
  match pc.buffer with
  | [] => (none, pc)
  | x :: rest =>
    if pc.fullV ≤ 0 then
      (none, { pc with logs := pc.logs ++ [.consumerBlocked] })
    else
      (some x,
       { pc with
          fullV := pc.fullV - 1,
          emptyV := pc.emptyV + 1,
          buffer := rest,
          logs := pc.logs ++ [.consumed x rest.length pc.buffer_size] })

/-- One completed call of the sequential driver on the buffer. -/
inductive BufOp where
  | produce (item : String)
  | consume
  deriving Repr, DecidableEq

/-- Runs a sequence of completed `produce`/`consume` calls. -/
def runBufOps (pc : ProducerConsumer) : List BufOp → ProducerConsumer
  | [] => pc
  | .produce item :: rest => runBufOps (pc.produce item).2 rest
  | .consume :: rest => runBufOps pc.consume.2 rest

/-! ### planificador.py — data model -/

/-- Process states (`procesos.py` uses the strings
"ready" / "running" / "waiting" / "terminated"). -/
inductive PState where
  | ready
  | running
  | waiting
  | terminated
  deriving Repr, DecidableEq

/-- `Process` from `procesos.py`.  The `resources` list and
`arrival_time` field are never read by the scheduler code and are
omitted. -/
structure Process where
  pid : Nat
  state : PState
  priority : Int
  memory : Nat
  burst_time : Int
  deriving Repr, DecidableEq

/-- Modelled from the spec: `recursos.py` (`SystemResources`) is not in
the sources; §3 ResourcePool describes total/available memory and a
boolean single-unit CPU, credited on termination.  Only `cpu_available`
and `release_memory` are touched by the scheduler. -/
structure SystemResources where
  cpu_available : Bool
  total_memory : Nat
  available_memory : Nat
  deriving Repr, DecidableEq

/-- Modelled from the spec: memory is credited back on termination. -/
def SystemResources.release_memory (r : SystemResources) (_pid mem : Nat) :
    SystemResources :=
  { r with available_memory := r.available_memory + mem }

/-- Whole scheduler state.  `current` is the pid of
`self.current_process` (`none` for Python `None`): every process the
scheduler handles lives in `process_manager.ready_queue`, so the shared
mutable object is represented by its queue record.  `quantum` and
`current_quantum` are the Round Robin fields; the other algorithms never
read them. -/
structure SchedState where
  ready_queue : List Process
  current : Option Nat
  resources : SystemResources
  time : Nat
  quantum : Nat
  current_quantum : Nat
  deriving Repr, DecidableEq

/-- The four algorithm subclasses of `Scheduler`. -/
inductive Alg where
  | fcfs
  | sjf
  | priority
  | round_robin
  deriving Repr, DecidableEq

/-- Find the queue record with the given pid (dereferencing `current`). -/
def findByPid (procs : List Process) (c : Nat) : Option Process :=
  procs.find? (fun p => p.pid == c)

/-- Mutate the queue record with the given pid in place. -/
def updateByPid (procs : List Process) (c : Nat) (f : Process → Process) :
    List Process :=
  procs.map (fun p => if p.pid = c then f p else p)

/-- The record `self.current_process` points at, if any. -/
def currentProc (s : SchedState) : Option Process :=
  s.current.bind (findByPid s.ready_queue)

/-- The dict returned by `execute_cycle`, carrying a snapshot of the
process object at return time. -/
inductive Event where
  | idle
  | process_started (p : Process)
  | process_running (p : Process)
  | process_completed (p : Process)
  | process_preempted (p : Process)
  deriving Repr, DecidableEq

/-- `FCFSScheduler.select_next_process`: first process in queue order
whose state is ready. -/
def fcfsSelect (s : SchedState) : Option Process :=
  s.ready_queue.find? (fun p => p.state == PState.ready)

/-- First element attaining the minimum of `key`, as Python's `min` with
a key function (strictly-smaller replacement keeps the earliest). -/
def minByKey (key : Process → Int) : List Process → Option Process
  | [] => none
  | p :: rest => some (rest.foldl (fun best q => if key q < key best then q else best) p)

/-- `SJFScheduler.select_next_process`: minimum `burst_time` among ready
processes, earliest on ties. -/
def sjfSelect (s : SchedState) : Option Process :=
  if s.ready_queue.isEmpty then none
  else minByKey (fun p => p.burst_time) (s.ready_queue.filter (fun p => p.state == PState.ready))

/-- `PriorityScheduler.select_next_process`: minimum `priority` value
among ready processes, earliest on ties. -/
def prioritySelect (s : SchedState) : Option Process :=
  if s.ready_queue.isEmpty then none
  else minByKey (fun p => p.priority) (s.ready_queue.filter (fun p => p.state == PState.ready))

/-- First half of `RoundRobinScheduler.select_next_process`: on an
exhausted quantum of a still-running current process, requeues it at the
tail, freeing the CPU. -/
def rrRequeue (s : SchedState) : SchedState :=
  match currentProc s with
  | some r =>
    if r.state = PState.running ∧ s.quantum ≤ s.current_quantum then
      { s with
          ready_queue :=
            (s.ready_queue.eraseP (fun p => p.pid == r.pid)) ++ [{ r with state := PState.ready }],
          resources := { s.resources with cpu_available := true },
          current_quantum := 0,
          current := none }
    else s
  | none => s

/-- Second half of `RoundRobinScheduler.select_next_process`: after the
possible requeue, return the first ready process and reset the used
quantum. -/
def rrSelect (s : SchedState) : Option Process × SchedState :=
  if s.ready_queue.isEmpty then (none, s)
  else
    match (rrRequeue s).ready_queue.find? (fun p => p.state == PState.ready) with
    | some p => (some p, { rrRequeue s with current_quantum := 0 })
    | none => (none, rrRequeue s)

/-- Dispatch of `select_next_process` over the four subclasses (only the
Round Robin override mutates state). -/
def select_next_process : Alg → SchedState → Option Process × SchedState
  | .fcfs, s => (fcfsSelect s, s)
  | .sjf, s => (sjfSelect s, s)
  | .priority, s => (prioritySelect s, s)
  | .round_robin, s => rrSelect s

/-- The no-running-process arm of `Scheduler.execute_cycle`: select a
process, and start it when the CPU is free, else report idle. -/
def selectBranch (alg : Alg) (s : SchedState) : Event × SchedState :=
  match (select_next_process alg s).1 with
  | some p =>
    if (select_next_process alg s).2.resources.cpu_available then
      (.process_started { p with state := PState.running },
       { (select_next_process alg s).2 with
          ready_queue :=
            updateByPid (select_next_process alg s).2.ready_queue p.pid
              (fun q => { q with state := PState.running }),
          current := some p.pid,
          resources := { (select_next_process alg s).2.resources with cpu_available := false } })
    else (.idle, (select_next_process alg s).2)
  | none => (.idle, (select_next_process alg s).2)

/-- Body of `Scheduler.execute_cycle` after the `time` increment: either
the select/start arm or the decrement-burst arm with completion
handling. -/
def cycleBody (alg : Alg) (s : SchedState) : Event × SchedState :=
  match currentProc s with
  | some r =>
    if r.state = PState.running then
      let b := r.burst_time - 1
      let q1 := updateByPid s.ready_queue r.pid (fun p => { p with burst_time := p.burst_time - 1 })
      if b ≤ 0 then
        (.process_completed { r with burst_time := b, state := PState.terminated },
         { s with
            ready_queue := updateByPid q1 r.pid (fun p => { p with state := PState.terminated }),
            current := none,
            resources :=
              ({ s.resources with cpu_available := true }).release_memory r.pid r.memory })
      else
        (.process_running { r with burst_time := b }, { s with ready_queue := q1 })
    else selectBranch alg s
  | none => selectBranch alg s

/-- `Scheduler.execute_cycle`: one tick (`self.time += 1`) then the cycle
body. -/
def baseCycle (alg : Alg) (s0 : SchedState) : Event × SchedState :=
  cycleBody alg { s0 with time := s0.time + 1 }

/-- The quantum bookkeeping appended by `RoundRobinScheduler.execute_cycle`
after the base cycle: counts the tick and preempts the running process
once its quantum is used up while burst remains. -/
def rrPostCycle (s : SchedState) (e : Event) : Event × SchedState :=
  match currentProc s with
  | some r =>
    if r.state = PState.running then
      let cq := s.current_quantum + 1
      if s.quantum ≤ cq ∧ 0 < r.burst_time then
        (.process_preempted { r with state := PState.ready },
         { s with
            ready_queue :=
              (s.ready_queue.eraseP (fun p => p.pid == r.pid)) ++ [{ r with state := PState.ready }],
            current := none,
            current_quantum := 0,
            resources := { s.resources with cpu_available := true } })
      else (e, { s with current_quantum := cq })
    else (e, s)
  | none => (e, s)

/-- `execute_cycle` of the selected scheduler subclass: the Round Robin
override runs the base cycle and then its quantum bookkeeping. -/
def execute_cycle (alg : Alg) (s : SchedState) : Event × SchedState :=
  match alg with
  | .round_robin => rrPostCycle (baseCycle .round_robin s).2 (baseCycle .round_robin s).1
  | _ => baseCycle alg s

/-- State after `n` successive `execute_cycle` calls. -/
def stepN (alg : Alg) : Nat → SchedState → SchedState
  | 0, s => s
  | n + 1, s => stepN alg n (execute_cycle alg s).2

/-- Events of `n` successive `execute_cycle` calls, in order. -/
def runEvents (alg : Alg) : Nat → SchedState → List Event
  | 0, _ => []
  | n + 1, s => (execute_cycle alg s).1 :: runEvents alg n (execute_cycle alg s).2

/-- A fresh scheduler over the given ready queue (constructor defaults:
no current process, zero used quantum, CPU free). -/
def initState (procs : List Process) (quantum : Nat) : SchedState :=
  { ready_queue := procs, current := none,
    resources := { cpu_available := true, total_memory := 1024, available_memory := 1024 },
    time := 0, quantum := quantum, current_quantum := 0 }

/-- State of the process with the given pid, if it is in the queue. -/
def stateOf (s : SchedState) (pid : Nat) : Option PState :=
  (findByPid s.ready_queue pid).map (fun p => p.state)

/-- Number of processes currently in state running. -/
def runningCount (s : SchedState) : Nat :=
  (s.ready_queue.filter (fun p => p.state == PState.running)).length

/-- Recognizer for `process_preempted` events. -/
def isPreempted : Event → Bool
  | .process_preempted _ => true
  | _ => false

/-! ### planificador.py — SchedulerFactory -/

/-- The scheduler kind (with Round Robin quantum) chosen by the factory. -/
inductive SchedulerKind where
  | fcfs
  | sjf
  | priority
  | roundRobin (quantum : Nat)
  deriving Repr, DecidableEq

/-- Python's `str.lower` on the ASCII names involved. -/
def lowerStr (s : String) : String :=
  String.mk (s.data.map Char.toLower)

/-- `SchedulerFactory.create_scheduler`: lowercases the name, returns the
matching scheduler, and raises `ValueError` (modelled as `Except.error`)
on anything else. -/
def create_scheduler (algorithm : String) (quantum : Nat) : Except String SchedulerKind :=
  if lowerStr algorithm = "fcfs" then .ok .fcfs
  else if lowerStr algorithm = "sjf" then .ok .sjf
  else if lowerStr algorithm = "priority" then .ok .priority
  else if lowerStr algorithm = "round_robin" then .ok (.roundRobin quantum)
  else .error ("Algoritmo desconocido: " ++ lowerStr algorithm)

/-! ### Concrete scenario states used by the claims -/

/-- Process P1 of the scenarios: pid 1, burst 3, ready. -/
def procA : Process :=
  { pid := 1, state := PState.ready, priority := 1, memory := 100, burst_time := 3 }

/-- Process P2 of the FCFS scenario: pid 2, burst 2, ready. -/
def procB : Process :=
  { pid := 2, state := PState.ready, priority := 1, memory := 100, burst_time := 2 }

/-- Round Robin scenario: quantum 2, single process P1 with burst 3. -/
def rrInit : SchedState :=
  initState [procA] 2

/-- FCFS scenario: P1 (burst 3) then P2 (burst 2), both ready. -/
def fcfsInit : SchedState :=
  initState [procA, procB] 2

/-- The FCFS scenario state once both processes have terminated: memory
has been credited back twice and the CPU is free. -/
def fcfsDone (t : Nat) : SchedState :=
  { ready_queue :=
      [{ procA with state := PState.terminated, burst_time := 0 },
       { procB with state := PState.terminated, burst_time := 0 }],
    current := none,
    resources := { cpu_available := true, total_memory := 1024, available_memory := 1224 },
    time := t, quantum := 2, current_quantum := 0 }

/-- Mailbox scenario: queue for pid 2, then send "x" and "y" from pid 1. -/
def mqXY : MessageQueue :=
  (((MessageQueue.init.create_queue 2).send_message 1 2 "x").2.send_message 1 2 "y").2

/-! ### Invariants -/

/-- Buffer bookkeeping invariant: the semaphore counters mirror the
buffer content. -/
def BufInv (pc : ProducerConsumer) : Prop :=
  pc.emptyV = (pc.buffer_size : Int) - pc.buffer.length ∧
  pc.fullV = (pc.buffer.length : Int) ∧
  pc.buffer.length ≤ pc.buffer_size

/-- Scheduler invariant: queue pids are distinct (`create_process`
assigns fresh ascending pids) and every running process is the one
`current_process` points at. -/
def SchedInv (s : SchedState) : Prop :=
  (s.ready_queue.map Process.pid).Nodup ∧
  ∀ p ∈ s.ready_queue, p.state = PState.running → s.current = some p.pid

/-- Start condition of claim C2: distinct pids and no process running. -/
def NoRunningInit (s : SchedState) : Prop :=
  (s.ready_queue.map Process.pid).Nodup ∧
  ∀ p ∈ s.ready_queue, p.state ≠ PState.running

/-! ## Helper lemmas -/

lemma length_runEvents (alg : Alg) : ∀ (n : Nat) (s : SchedState),
    (runEvents alg n s).length = n := by
  intro n
  induction n with
  | zero => intro s; rfl
  | succ n ih => intro s; simp [runEvents, ih]

lemma stepN_add (alg : Alg) (m n : Nat) (s : SchedState) :
    stepN alg (m + n) s = stepN alg n (stepN alg m s) := by
  induction m generalizing s with
  | zero => simp [stepN]
  | succ m ih =>
    have h1 : m + 1 + n = (m + n) + 1 := by omega
    rw [h1]
    exact ih (execute_cycle alg s).2

lemma lookup_updateQueues (l : List (Nat × List Message)) (pid : Nat)
    (f : List Message → List Message) :
    List.lookup pid (updateQueues l pid f) = (List.lookup pid l).map f := by
  induction l with
  | nil => rfl
  | cons e t ih =>
    obtain ⟨k, v⟩ := e
    by_cases hk : k = pid
    · subst hk
      rw [updateQueues, if_pos rfl]
      simp [List.lookup, ih]
    · rw [updateQueues, if_neg hk]
      have hk2 : (pid == k) = false := by
        simp
        exact Ne.symm hk
      simp [List.lookup, hk2, ih]

lemma bufInv_produce (pc : ProducerConsumer) (item : String) (h : BufInv pc) :
    BufInv (pc.produce item).2 := by
  obtain ⟨h1, h2, h3⟩ := h
  unfold ProducerConsumer.produce
  split_ifs with hfull hblock
  · exact ⟨h1, h2, h3⟩
  · exact ⟨h1, h2, h3⟩
  · refine ⟨?_, ?_, ?_⟩ <;> simp only [List.length_append, List.length_cons, List.length_nil]
    · push_cast
      omega
    · push_cast
      omega
    · omega

lemma bufInv_consume (pc : ProducerConsumer) (h : BufInv pc) :
    BufInv pc.consume.2 := by
  obtain ⟨h1, h2, h3⟩ := h
  unfold ProducerConsumer.consume
  cases hb : pc.buffer with
  | nil => exact ⟨h1, h2, h3⟩
  | cons x rest =>
    rw [hb] at h1 h2 h3
    simp only [List.length_cons] at h1 h2 h3
    split_ifs with hblock
    · refine ⟨?_, ?_, ?_⟩ <;> simp only [hb, List.length_cons]
      · exact h1
      · exact h2
      · exact h3
    · refine ⟨?_, ?_, ?_⟩
      · simp only
        omega
      · simp only
        omega
      · simp only
        omega

lemma bufInv_runBufOps (ops : List BufOp) (pc : ProducerConsumer) (h : BufInv pc) :
    BufInv (runBufOps pc ops) := by
  induction ops generalizing pc with
  | nil => exact h
  | cons op rest ih =>
    cases op with
    | produce item => exact ih _ (bufInv_produce pc item h)
    | consume => exact ih _ (bufInv_consume pc h)

lemma buffer_size_produce (pc : ProducerConsumer) (item : String) :
    (pc.produce item).2.buffer_size = pc.buffer_size := by
  unfold ProducerConsumer.produce
  split_ifs <;> rfl

lemma buffer_size_consume (pc : ProducerConsumer) :
    pc.consume.2.buffer_size = pc.buffer_size := by
  unfold ProducerConsumer.consume
  cases pc.buffer with
  | nil => rfl
  | cons x rest => split_ifs <;> rfl

lemma buffer_size_runBufOps (ops : List BufOp) (pc : ProducerConsumer) :
    (runBufOps pc ops).buffer_size = pc.buffer_size := by
  induction ops generalizing pc with
  | nil => rfl
  | cons op rest ih =>
    cases op with
    | produce item => rw [runBufOps, ih, buffer_size_produce]
    | consume => rw [runBufOps, ih, buffer_size_consume]

lemma map_pid_updateByPid (l : List Process) (c : Nat) (f : Process → Process)
    (hf : ∀ p, (f p).pid = p.pid) :
    (updateByPid l c f).map Process.pid = l.map Process.pid := by
  induction l with
  | nil => rfl
  | cons p t ih =>
    show (if p.pid = c then f p else p).pid :: (updateByPid t c f).map Process.pid = _
    by_cases hp : p.pid = c
    · simp [hp, hf, ih]
    · simp [hp, ih]

lemma mem_updateByPid {l : List Process} {c : Nat} {f : Process → Process} {x : Process}
    (hx : x ∈ updateByPid l c f) :
    ∃ q ∈ l, x = if q.pid = c then f q else q := by
  unfold updateByPid at hx
  obtain ⟨q, hq, hxq⟩ := List.mem_map.mp hx
  exact ⟨q, hq, hxq.symm⟩

lemma find?_pid_mem {l : List Process} {c : Nat} {r : Process}
    (h : findByPid l c = some r) : r ∈ l ∧ r.pid = c := by
  refine ⟨List.mem_of_find?_eq_some h, ?_⟩
  have h2 := List.find?_some h
  simpa using h2

lemma findByPid_ne_none_of_mem {l : List Process} {p : Process} (hp : p ∈ l) :
    findByPid l p.pid ≠ none := by
  intro h
  have h2 := List.find?_eq_none.mp h p hp
  simp at h2

lemma find?_pid_self {l : List Process} (hnd : (l.map Process.pid).Nodup) {p : Process}
    (hp : p ∈ l) : findByPid l p.pid = some p := by
  induction l with
  | nil => cases hp
  | cons a t ih =>
    rw [List.map_cons, List.nodup_cons] at hnd
    rcases List.mem_cons.mp hp with rfl | hp2
    · unfold findByPid
      rw [List.find?_cons_of_pos _ (by simp)]
    · have ha : a.pid ≠ p.pid := by
        intro hEq
        exact hnd.1 (hEq ▸ List.mem_map_of_mem Process.pid hp2)
      unfold findByPid
      rw [List.find?_cons_of_neg _ (by simp [ha])]
      exact ih hnd.2 hp2

lemma pid_ne_of_mem_eraseP {l : List Process} {c : Nat}
    (hnd : (l.map Process.pid).Nodup) {x : Process}
    (hx : x ∈ l.eraseP (fun p => p.pid == c)) : x.pid ≠ c := by
  induction l with
  | nil => simp [List.eraseP] at hx
  | cons a t ih =>
    rw [List.map_cons, List.nodup_cons] at hnd
    by_cases ha : a.pid = c
    · rw [List.eraseP_cons_of_pos (by simp [ha])] at hx
      intro hxc
      exact hnd.1 (by rw [ha, ← hxc]; exact List.mem_map_of_mem Process.pid hx)
    · rw [List.eraseP_cons_of_neg (by simp [ha])] at hx
      rcases List.mem_cons.mp hx with rfl | hx2
      · exact ha
      · exact ih hnd.2 hx2

lemma pid_perm_eraseP_append {l : List Process} {c : Nat} {r : Process} (r2 : Process)
    (hr : r ∈ l) (hrc : r.pid = c) (hr2 : r2.pid = c) :
    List.Perm ((l.eraseP (fun p => p.pid == c) ++ [r2]).map Process.pid)
      (l.map Process.pid) := by
  induction l with
  | nil => cases hr
  | cons a t ih =>
    by_cases ha : a.pid = c
    · rw [List.eraseP_cons_of_pos (by simp [ha])]
      simp only [List.map_append, List.map_cons, List.map_nil]
      rw [hr2, ha]
      exact List.perm_append_singleton _ _
    · rw [List.eraseP_cons_of_neg (by simp [ha])]
      have hr3 : r ∈ t := by
        rcases List.mem_cons.mp hr with rfl | hmem
        · exact absurd hrc ha
        · exact hmem
      simp only [List.cons_append, List.map_cons]
      exact (ih hr3).cons a.pid

lemma const_pid_length_le_one {l : List Process} (hnd : (l.map Process.pid).Nodup)
    {c : Nat} (hc : ∀ x ∈ l, x.pid = c) : l.length ≤ 1 := by
  match l with
  | [] => simp
  | [x] => simp
  | x :: y :: t =>
    exfalso
    have hx : x.pid = c := hc x (by simp)
    have hy : y.pid = c := hc y (by simp)
    rw [List.map_cons, List.nodup_cons] at hnd
    exact hnd.1 (by rw [List.map_cons, hx, ← hy]; exact List.mem_cons_self _ _)

lemma currentProc_mem {s : SchedState} {r : Process} (h : currentProc s = some r) :
    r ∈ s.ready_queue ∧ s.current = some r.pid := by
  unfold currentProc at h
  obtain ⟨c, hc, hfind⟩ := Option.bind_eq_some.mp h
  obtain ⟨hmem, hpid⟩ := find?_pid_mem hfind
  exact ⟨hmem, by rw [hc, hpid]⟩

lemma pidPerm_rrRequeue (s : SchedState) :
    List.Perm ((rrRequeue s).ready_queue.map Process.pid)
      (s.ready_queue.map Process.pid) := by
  unfold rrRequeue
  cases hc : currentProc s with
  | none => exact List.Perm.refl _
  | some r =>
    dsimp only
    split_ifs with hcond
    · exact pid_perm_eraseP_append { r with state := PState.ready }
        (currentProc_mem hc).1 rfl rfl
    · exact List.Perm.refl _

lemma pidPerm_select (alg : Alg) (s : SchedState) :
    List.Perm ((select_next_process alg s).2.ready_queue.map Process.pid)
      (s.ready_queue.map Process.pid) := by
  cases alg with
  | fcfs => exact List.Perm.refl _
  | sjf => exact List.Perm.refl _
  | priority => exact List.Perm.refl _
  | round_robin =>
    show List.Perm ((rrSelect s).2.ready_queue.map Process.pid) _
    unfold rrSelect
    split_ifs with hempty
    · exact List.Perm.refl _
    · cases hf : (rrRequeue s).ready_queue.find? (fun p => p.state == PState.ready) with
      | some p =>
        simp only [hf]
        exact pidPerm_rrRequeue s
      | none =>
        simp only [hf]
        exact pidPerm_rrRequeue s

lemma pidPerm_selectBranch (alg : Alg) (s : SchedState) :
    List.Perm ((selectBranch alg s).2.ready_queue.map Process.pid)
      (s.ready_queue.map Process.pid) := by
  unfold selectBranch
  cases hsel : (select_next_process alg s).1 with
  | none =>
    simp only
    exact pidPerm_select alg s
  | some p =>
    simp only
    split_ifs with hcpu
    · show List.Perm ((updateByPid (select_next_process alg s).2.ready_queue p.pid
          (fun q => { q with state := PState.running })).map Process.pid) _
      rw [map_pid_updateByPid _ p.pid (fun q => { q with state := PState.running })
        (fun q => rfl)]
      exact pidPerm_select alg s
    · exact pidPerm_select alg s

lemma pidPerm_cycleBody (alg : Alg) (s : SchedState) :
    List.Perm ((cycleBody alg s).2.ready_queue.map Process.pid)
      (s.ready_queue.map Process.pid) := by
  unfold cycleBody
  cases hc : currentProc s with
  | none => exact pidPerm_selectBranch alg s
  | some r =>
    dsimp only
    split_ifs with hr hb
    · show List.Perm ((updateByPid (updateByPid s.ready_queue r.pid
          (fun p => { p with burst_time := p.burst_time - 1 })) r.pid
          (fun p => { p with state := PState.terminated })).map Process.pid) _
      rw [map_pid_updateByPid _ r.pid (fun p => { p with state := PState.terminated })
        (fun q => rfl)]
      rw [map_pid_updateByPid _ r.pid (fun p => { p with burst_time := p.burst_time - 1 })
        (fun q => rfl)]
    · show List.Perm ((updateByPid s.ready_queue r.pid
          (fun p => { p with burst_time := p.burst_time - 1 })).map Process.pid) _
      rw [map_pid_updateByPid _ r.pid (fun p => { p with burst_time := p.burst_time - 1 })
        (fun q => rfl)]
    · exact pidPerm_selectBranch alg s

lemma pidPerm_rrPostCycle (s : SchedState) (e : Event) :
    List.Perm ((rrPostCycle s e).2.ready_queue.map Process.pid)
      (s.ready_queue.map Process.pid) := by
  unfold rrPostCycle
  cases hc : currentProc s with
  | none => exact List.Perm.refl _
  | some r =>
    dsimp only
    split_ifs with hr hcond
    · exact pid_perm_eraseP_append { r with state := PState.ready }
        (currentProc_mem hc).1 rfl rfl
    · exact List.Perm.refl _
    · exact List.Perm.refl _

lemma pidPerm_execute_cycle (alg : Alg) (s : SchedState) :
    List.Perm ((execute_cycle alg s).2.ready_queue.map Process.pid)
      (s.ready_queue.map Process.pid) := by
  cases alg with
  | round_robin =>
    exact (pidPerm_rrPostCycle (baseCycle .round_robin s).2
      (baseCycle .round_robin s).1).trans (pidPerm_cycleBody .round_robin _)
  | fcfs => exact pidPerm_cycleBody .fcfs _
  | sjf => exact pidPerm_cycleBody .sjf _
  | priority => exact pidPerm_cycleBody .priority _

lemma rrRequeue_of_no_running (s : SchedState)
    (hnr : ∀ p ∈ s.ready_queue, p.state ≠ PState.running) :
    rrRequeue s = s := by
  unfold rrRequeue
  cases hc : currentProc s with
  | none => rfl
  | some r =>
    dsimp only
    rw [if_neg]
    intro hcond
    exact hnr r (currentProc_mem hc).1 hcond.1

lemma select_queue_of_no_running (alg : Alg) (s : SchedState)
    (hnr : ∀ p ∈ s.ready_queue, p.state ≠ PState.running) :
    (select_next_process alg s).2.ready_queue = s.ready_queue := by
  cases alg with
  | fcfs => rfl
  | sjf => rfl
  | priority => rfl
  | round_robin =>
    show (rrSelect s).2.ready_queue = _
    unfold rrSelect
    split_ifs with hempty
    · rfl
    · rw [rrRequeue_of_no_running s hnr]
      cases hf : s.ready_queue.find? (fun p => p.state == PState.ready) with
      | some p => simp only [hf]
      | none => simp only [hf]

lemma inv_selectBranch (alg : Alg) (s : SchedState)
    (hnd : (s.ready_queue.map Process.pid).Nodup)
    (hnr : ∀ p ∈ s.ready_queue, p.state ≠ PState.running) :
    SchedInv (selectBranch alg s).2 := by
  have hq := select_queue_of_no_running alg s hnr
  have hnd2 : ((selectBranch alg s).2.ready_queue.map Process.pid).Nodup :=
    (pidPerm_selectBranch alg s).symm.nodup hnd
  refine ⟨hnd2, ?_⟩
  unfold selectBranch
  cases hsel : (select_next_process alg s).1 with
  | none =>
    simp only
    intro x hx hxr
    rw [hq] at hx
    exact absurd hxr (hnr x hx)
  | some p =>
    simp only
    split_ifs with hcpu
    · intro x hx hxr
      show some p.pid = some x.pid
      obtain ⟨q, hq2, hxq⟩ := mem_updateByPid hx
      by_cases hqp : q.pid = p.pid
      · rw [if_pos hqp] at hxq
        subst hxq
        rw [hqp]
      · rw [if_neg hqp] at hxq
        subst hxq
        rw [hq] at hq2
        exact absurd hxr (hnr x hq2)
    · intro x hx hxr
      rw [hq] at hx
      exact absurd hxr (hnr x hx)

lemma inv_cycleBody (alg : Alg) (s : SchedState) (hInv : SchedInv s) :
    SchedInv (cycleBody alg s).2 := by
  obtain ⟨hnd, hrun⟩ := hInv
  unfold cycleBody
  cases hc : currentProc s with
  | none =>
    have hnr : ∀ p ∈ s.ready_queue, p.state ≠ PState.running := by
      intro p hp hpr
      have hcur := hrun p hp hpr
      rw [currentProc, hcur] at hc
      simp only [Option.some_bind] at hc
      exact findByPid_ne_none_of_mem hp hc
    exact inv_selectBranch alg s hnd hnr
  | some r =>
    obtain ⟨hmem, hcur⟩ := currentProc_mem hc
    dsimp only
    split_ifs with hr hb
    · -- terminated branch
      refine ⟨?_, ?_⟩
      · show ((updateByPid (updateByPid s.ready_queue r.pid
            (fun p => { p with burst_time := p.burst_time - 1 })) r.pid
            (fun p => { p with state := PState.terminated })).map Process.pid).Nodup
        rw [map_pid_updateByPid _ r.pid (fun p => { p with state := PState.terminated })
          (fun q => rfl)]
        rw [map_pid_updateByPid _ r.pid (fun p => { p with burst_time := p.burst_time - 1 })
          (fun q => rfl)]
        exact hnd
      · intro x hx hxr
        exfalso
        obtain ⟨q, hq, hxq⟩ := mem_updateByPid hx
        obtain ⟨q0, hq0, hqq0⟩ := mem_updateByPid hq
        by_cases hqp : q.pid = r.pid
        · rw [if_pos hqp] at hxq
          rw [hxq] at hxr
          exact absurd hxr (by simp)
        · rw [if_neg hqp] at hxq
          by_cases hq0p : q0.pid = r.pid
          · rw [if_pos hq0p] at hqq0
            exact hqp (by rw [hqq0]; exact hq0p)
          · rw [if_neg hq0p] at hqq0
            have hq0r : q0.state = PState.running := by
              have hstate : x.state = q0.state := by rw [hxq, hqq0]
              rw [← hstate]
              exact hxr
            have hc2 := hrun q0 hq0 hq0r
            rw [hcur] at hc2
            exact hq0p (Option.some.inj hc2).symm
    · -- still running branch
      refine ⟨?_, ?_⟩
      · show ((updateByPid s.ready_queue r.pid
            (fun p => { p with burst_time := p.burst_time - 1 })).map Process.pid).Nodup
        rw [map_pid_updateByPid _ r.pid (fun p => { p with burst_time := p.burst_time - 1 })
          (fun q => rfl)]
        exact hnd
      · intro x hx hxr
        show s.current = some x.pid
        obtain ⟨q, hq, hxq⟩ := mem_updateByPid hx
        by_cases hqp : q.pid = r.pid
        · rw [hxq, if_pos hqp, hcur]
          exact congrArg some hqp.symm
        · rw [if_neg hqp] at hxq
          rw [hxq] at hxr ⊢
          exact hrun q hq hxr
    · -- current not running: select branch
      have hnr : ∀ p ∈ s.ready_queue, p.state ≠ PState.running := by
        intro p hp hpr
        have hcur2 := hrun p hp hpr
        rw [currentProc, hcur2] at hc
        simp only [Option.some_bind] at hc
        rw [find?_pid_self hnd hp] at hc
        exact hr ((Option.some.inj hc) ▸ hpr)
      exact inv_selectBranch alg s hnd hnr

lemma inv_rrPostCycle (s : SchedState) (e : Event) (hInv : SchedInv s) :
    SchedInv (rrPostCycle s e).2 := by
  obtain ⟨hnd, hrun⟩ := hInv
  unfold rrPostCycle
  cases hc : currentProc s with
  | none => exact ⟨hnd, hrun⟩
  | some r =>
    obtain ⟨hmem, hcur⟩ := currentProc_mem hc
    dsimp only
    split_ifs with hr hcond
    · refine ⟨?_, ?_⟩
      · show (((s.ready_queue.eraseP (fun p : Process => p.pid == r.pid)
            ++ [{ r with state := PState.ready }]).map Process.pid)).Nodup
        exact (pid_perm_eraseP_append { r with state := PState.ready }
          hmem rfl rfl).symm.nodup hnd
      · intro x hx hxr
        exfalso
        rcases List.mem_append.mp hx with hx1 | hx2
        · have hxl := (List.eraseP_sublist _).subset hx1
          have hne := pid_ne_of_mem_eraseP hnd hx1
          have hc2 := hrun x hxl hxr
          rw [hcur] at hc2
          exact hne (Option.some.inj hc2).symm
        · have hx3 : x = { r with state := PState.ready } := by simpa using hx2
          rw [hx3] at hxr
          exact absurd hxr (by simp)
    · exact ⟨hnd, hrun⟩
    · exact ⟨hnd, hrun⟩

lemma inv_execute_cycle (alg : Alg) (s : SchedState) (hInv : SchedInv s) :
    SchedInv (execute_cycle alg s).2 := by
  have htick : SchedInv { s with time := s.time + 1 } := ⟨hInv.1, hInv.2⟩
  cases alg with
  | round_robin =>
    exact inv_rrPostCycle (baseCycle .round_robin s).2 (baseCycle .round_robin s).1
      (inv_cycleBody .round_robin _ htick)
  | fcfs => exact inv_cycleBody .fcfs _ htick
  | sjf => exact inv_cycleBody .sjf _ htick
  | priority => exact inv_cycleBody .priority _ htick

lemma inv_stepN (alg : Alg) (n : Nat) :
    ∀ s : SchedState, SchedInv s → SchedInv (stepN alg n s) := by
  induction n with
  | zero => exact fun s hs => hs
  | succ n ih => exact fun s hs => ih _ (inv_execute_cycle alg s hs)

lemma runningCount_le_one (s : SchedState) (h : SchedInv s) : runningCount s ≤ 1 := by
  obtain ⟨hnd, hrun⟩ := h
  unfold runningCount
  have hndf : ((s.ready_queue.filter (fun p => p.state == PState.running)).map
      Process.pid).Nodup :=
    ((List.filter_sublist _).map Process.pid).nodup hnd
  by_cases hemp : s.ready_queue.filter (fun p => p.state == PState.running) = []
  · rw [hemp]
    simp
  · obtain ⟨x, hx⟩ := List.exists_mem_of_ne_nil _ hemp
    have hx2 := List.mem_filter.mp hx
    have hxr : x.state = PState.running := by simpa using hx2.2
    have hcx := hrun x hx2.1 hxr
    refine const_pid_length_le_one hndf (c := x.pid) ?_
    intro y hy
    have hy2 := List.mem_filter.mp hy
    have hyr : y.state = PState.running := by simpa using hy2.2
    have hcy := hrun y hy2.1 hyr
    rw [hcx] at hcy
    exact (Option.some.inj hcy).symm

lemma foldl_min_mem (key : Process → Int) :
    ∀ (t : List Process) (a : Process),
      t.foldl (fun best q => if key q < key best then q else best) a = a ∨
      t.foldl (fun best q => if key q < key best then q else best) a ∈ t := by
  intro t
  induction t with
  | nil => intro a; left; rfl
  | cons b u ih =>
    intro a
    rcases ih (if key b < key a then b else a) with h1 | h1
    · by_cases hb : key b < key a
      · right
        rw [List.foldl_cons, h1, if_pos hb]
        exact List.mem_cons_self _ _
      · left
        rw [List.foldl_cons, h1, if_neg hb]
    · right
      rw [List.foldl_cons]
      exact List.mem_cons_of_mem _ h1

lemma minByKey_mem {key : Process → Int} {l : List Process} {p : Process}
    (h : minByKey key l = some p) : p ∈ l := by
  cases l with
  | nil => cases h
  | cons a t =>
    have hp : t.foldl (fun best q => if key q < key best then q else best) a = p :=
      Option.some.inj h
    rcases foldl_min_mem key t a with h1 | h1
    · rw [hp] at h1
      rw [← h1]
      exact List.mem_cons_self _ _
    · rw [hp] at h1
      exact List.mem_cons_of_mem _ h1

lemma select_some_ready (alg : Alg) (s : SchedState) (p : Process)
    (h : (select_next_process alg s).1 = some p) : p.state = PState.ready := by
  cases alg with
  | fcfs =>
    have h2 : fcfsSelect s = some p := h
    unfold fcfsSelect at h2
    have h3 := List.find?_some h2
    simpa using h3
  | sjf =>
    have h2 : sjfSelect s = some p := h
    unfold sjfSelect at h2
    split_ifs at h2 with hemp
    have h3 := List.mem_filter.mp (minByKey_mem h2)
    simpa using h3.2
  | priority =>
    have h2 : prioritySelect s = some p := h
    unfold prioritySelect at h2
    split_ifs at h2 with hemp
    have h3 := List.mem_filter.mp (minByKey_mem h2)
    simpa using h3.2
  | round_robin =>
    have h2 : (rrSelect s).1 = some p := h
    unfold rrSelect at h2
    split_ifs at h2 with hemp
    cases hf : (rrRequeue s).ready_queue.find? (fun q => q.state == PState.ready) with
    | none =>
      rw [hf] at h2
      simp at h2
    | some p2 =>
      rw [hf] at h2
      simp at h2
      subst h2
      have h3 := List.find?_some hf
      simpa using h3

lemma fcfs_done_step (t : Nat) :
    execute_cycle Alg.fcfs (fcfsDone t) = (Event.idle, fcfsDone (t + 1)) := rfl

lemma fcfs_done_stepN : ∀ (k t : Nat), stepN Alg.fcfs k (fcfsDone t) = fcfsDone (t + k) := by
  intro k
  induction k with
  | zero => intro t; rfl
  | succ k ih =>
    intro t
    calc stepN Alg.fcfs (k + 1) (fcfsDone t)
        = stepN Alg.fcfs k (fcfsDone (t + 1)) := by
          show stepN Alg.fcfs k (execute_cycle Alg.fcfs (fcfsDone t)).2 = _
          rw [fcfs_done_step]
      _ = fcfsDone (t + 1 + k) := ih (t + 1)
      _ = fcfsDone (t + (k + 1)) := by
          congr 1
          omega

lemma fcfs_at_seven : stepN Alg.fcfs 7 fcfsInit = fcfsDone 7 := by decide

/-! ## Claims -/

/-- C1 (counterexample): in the Round Robin quantum-2 run of the single
process P1 with burst 3, the run to completion takes six cycles and
emits two `process_preempted` events, not one; after three cycles P1 has
not terminated. -/
theorem rr_quantum2_burst3_counterexample :
    (runEvents Alg.round_robin 6 rrInit).countP isPreempted = 2 ∧
    ¬ ((runEvents Alg.round_robin 6 rrInit).countP isPreempted = 1) ∧
    stateOf (stepN Alg.round_robin 3 rrInit) 1 ≠ some PState.terminated := by
  decide

/-- C1 (amended): the Round Robin quantum-2 run of P1 (burst 3) takes
six cycles — started (burst still 3), preempted (burst 2), started,
preempted (burst 1), started, completed — with exactly two
`process_preempted` events, P1 terminated afterwards, and the next cycle
idle. -/
theorem rr_quantum2_burst3_trace :
    runEvents Alg.round_robin 6 rrInit =
      [Event.process_started { procA with state := PState.running },
       Event.process_preempted { procA with state := PState.ready, burst_time := 2 },
       Event.process_started { procA with state := PState.running, burst_time := 2 },
       Event.process_preempted { procA with state := PState.ready, burst_time := 1 },
       Event.process_started { procA with state := PState.running, burst_time := 1 },
       Event.process_completed { procA with state := PState.terminated, burst_time := 0 }] ∧
    stateOf (stepN Alg.round_robin 6 rrInit) 1 = some PState.terminated ∧
    (execute_cycle Alg.round_robin (stepN Alg.round_robin 6 rrInit)).1 = Event.idle := by
  decide

/-- C3: after any completed sequence of produce/consume calls on a
buffer of capacity `n`, `empty_slots + full_slots = n`, the buffer never
holds more than `n` items, and `full_slots` equals the item count. -/
theorem buffer_slot_invariant (n : Nat) (ops : List BufOp) :
    (runBufOps (ProducerConsumer.init n) ops).emptyV
        + (runBufOps (ProducerConsumer.init n) ops).fullV = (n : Int) ∧
    (runBufOps (ProducerConsumer.init n) ops).buffer.length ≤ n ∧
    (runBufOps (ProducerConsumer.init n) ops).fullV
        = ((runBufOps (ProducerConsumer.init n) ops).buffer.length : Int) := by
  have hinit : BufInv (ProducerConsumer.init n) := by
    refine ⟨?_, ?_, ?_⟩ <;> simp [ProducerConsumer.init]
  have h := bufInv_runBufOps ops _ hinit
  have hsz := buffer_size_runBufOps ops (ProducerConsumer.init n)
  obtain ⟨h1, h2, h3⟩ := h
  rw [hsz] at h1 h3
  have hn : (ProducerConsumer.init n).buffer_size = n := rfl
  rw [hn] at h1 h3
  refine ⟨by omega, h3, h2⟩

/-- C4 (counterexample): the name "FCFS" is outside the literal set
{fcfs, sjf, priority, round_robin}, yet construction succeeds (the
factory lowercases the name first). -/
theorem create_scheduler_case_counterexample :
    create_scheduler "FCFS" 2 = Except.ok SchedulerKind.fcfs ∧
    ¬ ("FCFS" = "fcfs" ∨ "FCFS" = "sjf" ∨ "FCFS" = "priority" ∨ "FCFS" = "round_robin") :=
  ⟨rfl, by decide⟩

/-- C4 (amended): construction succeeds exactly when the lowercased name
is one of fcfs, sjf, priority, round_robin; each of those four names
yields the corresponding scheduler, and any other name raises
`ValueError` (never a silent default). -/
theorem create_scheduler_classification (name : String) (q : Nat) :
    ((∃ k, create_scheduler name q = Except.ok k) ↔
        lowerStr name ∈ ["fcfs", "sjf", "priority", "round_robin"]) ∧
    create_scheduler "fcfs" q = Except.ok SchedulerKind.fcfs ∧
    create_scheduler "sjf" q = Except.ok SchedulerKind.sjf ∧
    create_scheduler "priority" q = Except.ok SchedulerKind.priority ∧
    create_scheduler "round_robin" q = Except.ok (SchedulerKind.roundRobin q) ∧
    (lowerStr name ∉ ["fcfs", "sjf", "priority", "round_robin"] →
      create_scheduler name q = Except.error ("Algoritmo desconocido: " ++ lowerStr name)) := by
  refine ⟨?_, rfl, rfl, rfl, rfl, ?_⟩
  · unfold create_scheduler
    split_ifs with h1 h2 h3 h4
    · simp [h1]
    · simp [h2]
    · simp [h3]
    · simp [h4]
    · simp [List.mem_cons, h1, h2, h3, h4]
  · intro hmem
    unfold create_scheduler
    split_ifs with h1 h2 h3 h4
    · exact absurd (by simp [h1]) hmem
    · exact absurd (by simp [h2]) hmem
    · exact absurd (by simp [h3]) hmem
    · exact absurd (by simp [h4]) hmem
    · rfl

/-- C4 (witness for the amended theorem): a genuinely unknown name is
rejected with the `ValueError` message. -/
theorem create_scheduler_classification_witness :
    lowerStr "Banana" ∉ ["fcfs", "sjf", "priority", "round_robin"] ∧
    create_scheduler "Banana" 2
      = Except.error ("Algoritmo desconocido: " ++ lowerStr "Banana") :=
  ⟨by decide, (create_scheduler_classification "Banana" 2).2.2.2.2.2 (by decide)⟩

/-- C5 (code evaluated at the failing input): on a capacity-1 buffer,
`produce "a"` succeeds and logs one entry, but the failed `produce "b"`
returns `false` with the log unchanged, and `consume` on the empty
buffer returns `none` with no log entry — failed attempts are not
recorded, because the early size guards return before the
blocked-logging branches can run. -/
theorem failed_attempts_not_logged :
    ((ProducerConsumer.init 1).produce "a").1 = true ∧
    ((ProducerConsumer.init 1).produce "a").2.logs.length = 1 ∧
    (((ProducerConsumer.init 1).produce "a").2.produce "b").1 = false ∧
    (((ProducerConsumer.init 1).produce "a").2.produce "b").2.logs
      = ((ProducerConsumer.init 1).produce "a").2.logs ∧
    (ProducerConsumer.init 1).consume.1 = none ∧
    (ProducerConsumer.init 1).consume.2.logs = [] := by
  decide

/-- C7: capacity-2 scenario — two produces succeed, a third reports
would-block leaving the buffer unchanged, consume returns the FIFO head
"a", and a following produce succeeds. -/
theorem bounded_buffer_capacity2_scenario :
    ((ProducerConsumer.init 2).produce "a").1 = true ∧
    (((ProducerConsumer.init 2).produce "a").2.produce "b").1 = true ∧
    ((((ProducerConsumer.init 2).produce "a").2.produce "b").2.produce "c").1 = false ∧
    ((((ProducerConsumer.init 2).produce "a").2.produce "b").2.produce "c").2.buffer
      = ["a", "b"] ∧
    (((((ProducerConsumer.init 2).produce "a").2.produce "b").2.produce "c").2.consume).1
      = some "a" ∧
    ((((((ProducerConsumer.init 2).produce "a").2.produce "b").2.produce "c").2.consume).2.produce
        "c").1 = true := by
  decide

/-- C8: receive on an empty mailbox returns `none` leaving the state
unchanged; receive on a nonempty mailbox destructively returns the head,
leaving the tail and shrinking the size by one; and send enqueues at the
tail — together, messages are delivered in FIFO order. -/
theorem mailbox_fifo_receive (mq : MessageQueue) (pid : Nat) (q : List Message)
    (h : mq.lookup pid = some q) :
    (q = [] → mq.receive_message pid = (none, mq)) ∧
    (∀ m rest, q = m :: rest →
      (mq.receive_message pid).1 = some m ∧
      ((mq.receive_message pid).2).lookup pid = some rest ∧
      ((mq.receive_message pid).2).get_queue_size pid + 1 = mq.get_queue_size pid) ∧
    (∀ sender content,
      ((mq.send_message sender pid content).2).lookup pid
        = some (q ++ [{ sender := sender, content := content, timestamp := mq.clock }])) := by
  refine ⟨?_, ?_, ?_⟩
  · intro hq
    subst hq
    unfold MessageQueue.receive_message
    rw [h]
  · intro m rest hq
    subst hq
    have hrec : mq.receive_message pid =
        (some m,
         { mq with process_queues := updateQueues mq.process_queues pid (fun q => q.tail) }) := by
      unfold MessageQueue.receive_message
      rw [h]
    have hlook : ((mq.receive_message pid).2).lookup pid = some rest := by
      rw [hrec]
      show List.lookup pid (updateQueues mq.process_queues pid _) = some rest
      rw [lookup_updateQueues]
      have : List.lookup pid mq.process_queues = some (m :: rest) := h
      rw [this]
      rfl
    refine ⟨by rw [hrec], hlook, ?_⟩
    unfold MessageQueue.get_queue_size
    rw [hlook]
    show rest.length + 1 = _
    rw [show mq.lookup pid = some (m :: rest) from h]
    rfl
  · intro sender content
    unfold MessageQueue.send_message
    rw [h]
    show List.lookup pid
        (updateQueues mq.process_queues pid
          (fun ql => ql ++ [{ sender := sender, content := content, timestamp := mq.clock }]))
      = some (q ++ [{ sender := sender, content := content, timestamp := mq.clock }])
    rw [lookup_updateQueues]
    rw [show List.lookup pid mq.process_queues = some q from h]
    rfl

/-- C8 (witness): after sending "x" then "y" to pid 2, the receives
yield "x" then "y" and each successful receive shrinks the mailbox by
one. -/
theorem mailbox_fifo_receive_witness :
    (mqXY.receive_message 2).1 = some { sender := 1, content := "x", timestamp := 0 } ∧
    (((mqXY.receive_message 2).2).receive_message 2).1
      = some { sender := 1, content := "y", timestamp := 1 } ∧
    ((mqXY.receive_message 2).2).get_queue_size 2 + 1 = mqXY.get_queue_size 2 ∧
    ((((mqXY.receive_message 2).2).receive_message 2).2).get_queue_size 2 + 1
      = ((mqXY.receive_message 2).2).get_queue_size 2 := by
  have h1 := mailbox_fifo_receive mqXY 2
    [{ sender := 1, content := "x", timestamp := 0 },
     { sender := 1, content := "y", timestamp := 1 }] (by rfl)
  have h2 := mailbox_fifo_receive ((mqXY.receive_message 2).2) 2
    [{ sender := 1, content := "y", timestamp := 1 }] ((h1.2.1 _ _ rfl).2.1)
  exact ⟨(h1.2.1 _ _ rfl).1, (h2.2.1 _ _ rfl).1, (h1.2.1 _ _ rfl).2.2, (h2.2.1 _ _ rfl).2.2⟩

/-- C9: sending to a receiver that has no mailbox fails and leaves the
whole message system unchanged — in particular no mailbox is created. -/
theorem send_no_mailbox_unchanged (mq : MessageQueue) (sender receiver : Nat)
    (content : String) (h : mq.lookup receiver = none) :
    mq.send_message sender receiver content = (false, mq) := by
  unfold MessageQueue.send_message
  rw [h]

/-- C9 (witness): sending to pid 7, which has no mailbox, fails and
changes nothing. -/
theorem send_no_mailbox_unchanged_witness :
    MessageQueue.init.lookup 7 = none ∧
    MessageQueue.init.send_message 1 7 "hello" = (false, MessageQueue.init) :=
  ⟨rfl, send_no_mailbox_unchanged MessageQueue.init 1 7 "hello" rfl⟩

/-- C2: for every algorithm and every sequence of cycles from a state
with distinct pids and no running process, at most one process is in
state running at any instant, and each `execute_cycle` call returns
exactly one event. -/
theorem at_most_one_running (alg : Alg) (s : SchedState) (n : Nat)
    (h : NoRunningInit s) :
    runningCount (stepN alg n s) ≤ 1 ∧ (runEvents alg n s).length = n := by
  obtain ⟨hnd, hnr⟩ := h
  have hInv : SchedInv s := ⟨hnd, fun p hp hpr => absurd hpr (hnr p hp)⟩
  exact ⟨runningCount_le_one _ (inv_stepN alg n s hInv), length_runEvents alg n s⟩

/-- C2 (witness): the Round Robin scenario starts with no running
process; after four cycles at most one process is running and four
events were returned. -/
theorem at_most_one_running_witness :
    runningCount (stepN Alg.round_robin 4 rrInit) ≤ 1 ∧
    (runEvents Alg.round_robin 4 rrInit).length = 4 :=
  at_most_one_running Alg.round_robin rrInit 4 ⟨by decide, by decide⟩

/-- C6: under FCFS with P1 (burst 3) entered before P2 (burst 2), P2 is
never running before P1 has terminated, over any number of cycles. -/
theorem fcfs_p1_completes_before_p2 (n : Nat)
    (h : stateOf (stepN Alg.fcfs n fcfsInit) 2 = some PState.running) :
    stateOf (stepN Alg.fcfs n fcfsInit) 1 = some PState.terminated := by
  by_cases hn : n ≤ 6
  · interval_cases n <;> revert h <;> decide
  · obtain ⟨k, rfl⟩ : ∃ k, n = 7 + k := ⟨n - 7, by omega⟩
    rw [stepN_add, fcfs_at_seven, fcfs_done_stepN]
    rfl

/-- C6 (witness): after five cycles P2 is running and P1 has
terminated. -/
theorem fcfs_p1_completes_before_p2_witness :
    stateOf (stepN Alg.fcfs 5 fcfsInit) 2 = some PState.running ∧
    stateOf (stepN Alg.fcfs 5 fcfsInit) 1 = some PState.terminated :=
  ⟨by decide, fcfs_p1_completes_before_p2 5 (by decide)⟩

/-- C10: one `execute_cycle` of any algorithm permutes the ready queue's
pids (no process — terminated ones included — is ever removed), and
every process returned by `select_next_process` is in state ready, so a
terminated or waiting process is never selected. -/
theorem queue_retention_and_ready_selection (alg : Alg) (s : SchedState) :
    List.Perm ((execute_cycle alg s).2.ready_queue.map Process.pid)
      (s.ready_queue.map Process.pid) ∧
    ∀ p, (select_next_process alg s).1 = some p → p.state = PState.ready :=
  ⟨pidPerm_execute_cycle alg s, fun p h => select_some_ready alg s p h⟩

/-- C10 (witness): on the FCFS scenario, one cycle keeps both pids in
the queue and the selected process P1 is ready. -/
theorem queue_retention_and_ready_selection_witness :
    List.Perm ((execute_cycle Alg.fcfs fcfsInit).2.ready_queue.map Process.pid)
      (fcfsInit.ready_queue.map Process.pid) ∧
    (select_next_process Alg.fcfs fcfsInit).1 = some procA ∧
    procA.state = PState.ready :=
  ⟨(queue_retention_and_ready_selection Alg.fcfs fcfsInit).1,
   by decide,
   (queue_retention_and_ready_selection Alg.fcfs fcfsInit).2 procA (by decide)⟩

end OSim
